import Mathlib

/-!
Verification of the Scoped Memory Fabric of the `agentfield` repository.

The fabric implementation itself (the `agentfield` Python SDK memory module
and the control-plane store) is not shipped in this snapshot of the tree:
only its functional tests (`tests/functional/...`) and example callers
(`examples/python_agent_nodes/documentation_chatbot/main.py`) are present.
The store, event log, pattern matcher and dispatcher below are therefore
modelled from the specification, with the wire-level fields (`scope`,
`scope_id`, `key`, `action`, `data`, `previous_data`, `sequence`) as the
functional tests observe them.  The caller-side post-filtering helpers
(`_filter_hits`, `_retrieve_for_query`) are translated directly from the
source of the documentation chatbot example.
-/

/-- Modelled from the spec: `ScopeHandle` has
`kind ∈ {Global, Session, Actor, Workflow}`, `id : optional string`;
identity is `(kind, id)` and `Global` has no id.  The fabric implementation
is absent from the tree. -/
inductive Scope where
  | global
  | session (id : String)
  | actor (id : String)
  | workflow (id : String)
deriving DecidableEq, Repr

/-- The wire-level `scope` field of a `ChangeEvent` carries the scope kind
as a lowercase string, as the functional tests observe
(`event["scope"] == "session"`, `event["scope"] == "global"`). -/
def Scope.kindStr : Scope → String
  | .global => "global"
  | .session _ => "session"
  | .actor _ => "actor"
  | .workflow _ => "workflow"

/-- The wire-level `scope_id` field: the caller-supplied id verbatim for
`Session`/`Actor`/`Workflow`; the functional tests observe the literal
string `"global"` for the `Global` scope
(`global_event["event"].get("scope_id") == "global"`). -/
def Scope.scopeIdStr : Scope → String
  | .global => "global"
  | .session i => i
  | .actor i => i
  | .workflow i => i

/-- Mutation kind of a `ChangeEvent`: `action ∈ {set, delete}`. -/
inductive MemAction where
  | set
  | delete
deriving DecidableEq, Repr

/-- Modelled from the spec: wire-level `ChangeEvent`
`{scope, scope_id, key, action, data, previous_data, sequence}`
(the `id`, `metadata` and `timestamp` fields are omitted; no claim
constrains them).  `α` is the type of stored values. -/
structure ChangeEvent (α : Type) where
  scope : String
  scope_id : String
  key : String
  action : MemAction
  data : Option α
  previous_data : Option α
  sequence : Nat
deriving Repr

/-- Modelled from the spec: the Key-Value store partitioned by scope, the
append-only durable event log, and the per-partition sequence counter
(`sequence: monotonic per scope partition`). -/
structure Fabric (α : Type) where
  store : Scope → String → Option α
  log : List (ChangeEvent α)
  seqNo : Scope → Nat

/-- The fabric before any mutation: no live values, empty event log. -/
def Fabric.empty (α : Type) : Fabric α :=
  { store := fun _ _ => none, log := [], seqNo := fun _ => 0 }

/-- Modelled from the spec: `get(scope,key,default) -> value`: never raises
for a missing key; returns `default`. -/
def Fabric.get (f : Fabric α) (s : Scope) (k : String) (default : α) : α :=
  (f.store s k).getD default

/-- Modelled from the spec: `exists(scope,key) -> bool`. -/
def Fabric.existsKey (f : Fabric α) (s : Scope) (k : String) : Bool :=
  (f.store s k).isSome

/-- Modelled from the spec: `set(scope,key,value) -> ChangeEvent`: writes
the new value, captures `previous_data`, emits a `set` event; the event is
appended to the log in the same critical section, with the partition's next
sequence number. -/
def Fabric.set (f : Fabric α) (s : Scope) (k : String) (v : α) :
    Fabric α × ChangeEvent α :=
  let ev : ChangeEvent α :=
    { scope := s.kindStr, scope_id := s.scopeIdStr, key := k,
      action := .set, data := some v, previous_data := f.store s k,
      sequence := f.seqNo s }
  ({ store := fun s' k' => if s' = s ∧ k' = k then some v else f.store s' k',
     log := f.log ++ [ev],
     seqNo := fun s' => if s' = s then f.seqNo s + 1 else f.seqNo s' }, ev)

/-- Modelled from the spec: `delete(scope,key) -> ChangeEvent`: removes the
live value but the event log retains it; `previous_data` is the just-removed
value; `data` is null. -/
def Fabric.delete (f : Fabric α) (s : Scope) (k : String) :
    Fabric α × ChangeEvent α :=
  let ev : ChangeEvent α :=
    { scope := s.kindStr, scope_id := s.scopeIdStr, key := k,
      action := .delete, data := none, previous_data := f.store s k,
      sequence := f.seqNo s }
  ({ store := fun s' k' => if s' = s ∧ k' = k then none else f.store s' k',
     log := f.log ++ [ev],
     seqNo := fun s' => if s' = s then f.seqNo s + 1 else f.seqNo s' }, ev)

/-- C1: get after set returns the value just written. -/
theorem c1_get_after_set (f : Fabric α) (s : Scope) (k : String) (v d : α) :
    ((f.set s k v).1).get s k d = v := by
  simp [Fabric.set, Fabric.get]

/-- C9: exists after set is true. -/
theorem c9_exists_after_set (f : Fabric α) (s : Scope) (k : String) (v : α) :
    ((f.set s k v).1).existsKey s k = true := by
  simp [Fabric.set, Fabric.existsKey]

/-- C7: get on a missing key returns the default. -/
theorem c7_get_default (f : Fabric α) (s : Scope) (k : String) (d : α)
    (h : f.store s k = none) : f.get s k d = d := by
  simp [Fabric.get, h]

theorem c7_get_default_witness :
    (Fabric.empty Nat).store .global "missing" = none ∧
      (Fabric.empty Nat).get .global "missing" 7 = 7 :=
  ⟨rfl, c7_get_default (Fabric.empty Nat) .global "missing" 7 rfl⟩

/-- Auxiliary splitter: segments of a character list between dots,
accumulating the current (reversed) segment. -/
def splitDotsAux : List Char → List Char → List String
  | [], acc => [String.mk acc.reverse]
  | c :: cs, acc =>
    if c = '.' then String.mk acc.reverse :: splitDotsAux cs []
    else splitDotsAux cs (c :: acc)

/-- Modelled from the spec: keys and patterns are dot-segmented strings;
`splitDots` yields the list of segments. -/
def splitDots (s : String) : List String := splitDotsAux s.toList []

/-- One pattern segment matches one key segment when it is the
single-segment wildcard or is identical to it. -/
def segMatch (p k : String) : Bool := p == "*" || p == k

/-- Segment-wise matching of a pattern's segments against a key's segments;
lists of different lengths never match (no multi-segment wildcard). -/
def matchSegs : List String → List String → Bool
  | [], [] => true
  | p :: ps, k :: ks => segMatch p k && matchSegs ps ks
  | _, _ => false

/-- Modelled from the spec: a pattern matches a key only if segment counts
are equal and each pattern segment is either identical to the corresponding
key segment or is the single-segment wildcard. -/
def patternMatches (pat key : String) : Bool :=
  matchSegs (splitDots pat) (splitDots key)

theorem matchSegs_iff_forall₂ (ps ks : List String) :
    matchSegs ps ks = true ↔
      List.Forall₂ (fun p k => p = "*" ∨ p = k) ps ks := by
  induction ps generalizing ks with
  | nil => cases ks <;> simp [matchSegs]
  | cons p ps ih =>
    cases ks with
    | nil => simp [matchSegs]
    | cons k ks =>
      simp [matchSegs, segMatch, Bool.and_eq_true, Bool.or_eq_true,
        beq_iff_eq, ih, List.forall₂_cons]

/-- C3: a pattern matches a key iff the segment counts are equal and each
pattern segment is the wildcard or is identical to the corresponding key
segment; moreover the documented examples hold. -/
theorem c3_pattern_matching (pat key : String) :
    (patternMatches pat key = true ↔
      (splitDots pat).length = (splitDots key).length ∧
        List.Forall₂ (fun p k => p = "*" ∨ p = k)
          (splitDots pat) (splitDots key)) ∧
    patternMatches "a.*.c" "a.b.c" = true ∧
    patternMatches "a.*.c" "a.b.b.c" = false ∧
    patternMatches "a.*.c" "a.c" = false ∧
    patternMatches "a.*.*.d" "a.x.y.d" = true ∧
    patternMatches "a.*.*.d" "a.x.d" = false ∧
    patternMatches "a.*.*.d" "a.x.y.z.d" = false := by
  refine ⟨?_, by decide, by decide, by decide, by decide, by decide, by decide⟩
  rw [patternMatches, matchSegs_iff_forall₂]
  exact ⟨fun h => ⟨h.length_eq, h⟩, fun h => h.2⟩

/-- Modelled from the spec: subscription binding, either agent-wide or
bound to one scope instance. -/
inductive Binding where
  | agentWide
  | scopeInstance (scope : Scope)

/-- Modelled from the spec: a subscription holds one or more dotted
wildcard patterns and a binding (the handler itself is irrelevant to
matching). -/
structure Subscription where
  patterns : List String
  binding : Binding

/-- Modelled from the spec: `binding = AgentWide` matches purely on
key-pattern; `binding = ScopeInstance(scope)` additionally requires
`event.scope == scope.kind` and `event.scope_id == scope.id`. -/
def bindingAllows : Binding → ChangeEvent α → Bool
  | .agentWide, _ => true
  | .scopeInstance sc, e =>
    e.scope == sc.kindStr && e.scope_id == sc.scopeIdStr

/-- Modelled from the spec: the dispatcher hands an event to a
subscription's handler iff some pattern matches the key and the binding
allows the event's scope instance. -/
def dispatchesTo (sub : Subscription) (e : ChangeEvent α) : Bool :=
  sub.patterns.any (fun p => patternMatches p e.key) &&
    bindingAllows sub.binding e

/-- C5: a ScopeInstance-bound subscription receives an event only if the
event's scope kind and scope id equal the binding's; in particular a
subscription bound to Session "u1" never fires for a set of the identical
key under Session "u2" or under Global. -/
theorem c5_scope_instance_binding (ps : List String) (sc : Scope)
    (e : ChangeEvent α) (f : Fabric α) (k : String) (v : α)
    (h : dispatchesTo ⟨ps, .scopeInstance sc⟩ e = true) :
    (e.scope = sc.kindStr ∧ e.scope_id = sc.scopeIdStr) ∧
    dispatchesTo ⟨ps, .scopeInstance (.session "u1")⟩
      (f.set (.session "u2") k v).2 = false ∧
    dispatchesTo ⟨ps, .scopeInstance (.session "u1")⟩
      (f.set .global k v).2 = false := by
  refine ⟨?_, ?_, ?_⟩
  · have h' := (Bool.and_eq_true _ _).mp h |>.2
    simp only [bindingAllows, Bool.and_eq_true, beq_iff_eq] at h'
    exact h'
  · simp [dispatchesTo, bindingAllows, Fabric.set, Scope.kindStr,
      Scope.scopeIdStr]
  · simp [dispatchesTo, bindingAllows, Fabric.set, Scope.kindStr,
      Scope.scopeIdStr]

theorem c5_scope_instance_binding_witness :
    dispatchesTo ⟨["p.k"], .scopeInstance (.session "u1")⟩
      ((Fabric.empty String).set (.session "u1") "p.k" "v").2 = true ∧
    ((((Fabric.empty String).set (.session "u1") "p.k" "v").2.scope =
        (Scope.session "u1").kindStr ∧
      ((Fabric.empty String).set (.session "u1") "p.k" "v").2.scope_id =
        (Scope.session "u1").scopeIdStr) ∧
    dispatchesTo ⟨["p.k"], .scopeInstance (.session "u1")⟩
      ((Fabric.empty String).set (.session "u2") "p.k" "v").2 = false ∧
    dispatchesTo ⟨["p.k"], .scopeInstance (.session "u1")⟩
      ((Fabric.empty String).set .global "p.k" "v").2 = false) :=
  ⟨by decide,
    c5_scope_instance_binding ["p.k"] (.session "u1")
      ((Fabric.empty String).set (.session "u1") "p.k" "v").2
      (Fabric.empty String) "p.k" "v" (by decide)⟩

/-- C4: deleting a live value removes it and emits a delete event whose
data is null and whose previous_data is the just-removed value. -/
theorem c4_delete_event (f : Fabric α) (s : Scope) (k : String) (v : α)
    (h : f.store s k = some v) :
    (f.delete s k).1.store s k = none ∧
    (f.delete s k).1.existsKey s k = false ∧
    (f.delete s k).2.action = .delete ∧
    (f.delete s k).2.data = none ∧
    (f.delete s k).2.previous_data = some v := by
  refine ⟨?_, ?_, rfl, rfl, ?_⟩
  · simp [Fabric.delete]
  · simp [Fabric.delete, Fabric.existsKey]
  · simpa [Fabric.delete] using h

theorem c4_delete_event_witness :
    ((Fabric.empty String).set (.session "u1") "prefs.theme" "dark").1.store
        (.session "u1") "prefs.theme" = some "dark" ∧
    ((((Fabric.empty String).set (.session "u1") "prefs.theme" "dark").1.delete
        (.session "u1") "prefs.theme").1.store
        (.session "u1") "prefs.theme" = none ∧
      (((Fabric.empty String).set (.session "u1") "prefs.theme" "dark").1.delete
        (.session "u1") "prefs.theme").1.existsKey
        (.session "u1") "prefs.theme" = false ∧
      (((Fabric.empty String).set (.session "u1") "prefs.theme" "dark").1.delete
        (.session "u1") "prefs.theme").2.action = .delete ∧
      (((Fabric.empty String).set (.session "u1") "prefs.theme" "dark").1.delete
        (.session "u1") "prefs.theme").2.data = none ∧
      (((Fabric.empty String).set (.session "u1") "prefs.theme" "dark").1.delete
        (.session "u1") "prefs.theme").2.previous_data = some "dark") :=
  ⟨by decide,
    c4_delete_event
      ((Fabric.empty String).set (.session "u1") "prefs.theme" "dark").1
      (.session "u1") "prefs.theme" "dark" (by decide)⟩

/-- C8: every mutation through the Global scope handle emits an event whose
scope is "global" and whose scope_id is the literal string "global". -/
theorem c8_global_event_fields (f : Fabric α) (k : String) (v : α) :
    ((f.set .global k v).2.scope = "global" ∧
      (f.set .global k v).2.scope_id = "global") ∧
    ((f.delete .global k).2.scope = "global" ∧
      (f.delete .global k).2.scope_id = "global") :=
  ⟨⟨rfl, rfl⟩, ⟨rfl, rfl⟩⟩

/-- C10: every mutation through a session handle created for id `i` emits
an event with scope "session" and scope_id exactly `i`, unprefixed. -/
theorem c10_session_event_fields (f : Fabric α) (i k : String) (v : α) :
    ((f.set (.session i) k v).2.scope = "session" ∧
      (f.set (.session i) k v).2.scope_id = i) ∧
    ((f.delete (.session i) k).2.scope = "session" ∧
      (f.delete (.session i) k).2.scope_id = i) :=
  ⟨⟨rfl, rfl⟩, ⟨rfl, rfl⟩⟩

/-- The sub-sequence of a log consisting of the events for one
`(scope, key)` pair, identified by the wire-level fields. -/
def eventsFor (s : Scope) (k : String) (log : List (ChangeEvent α)) :
    List (ChangeEvent α) :=
  log.filter fun e =>
    e.scope == s.kindStr && e.scope_id == s.scopeIdStr && e.key == k

/-- A mutation issued against the fabric: the two event-emitting KV
operations. -/
inductive Op (α : Type) where
  | setOp (s : Scope) (k : String) (v : α)
  | delOp (s : Scope) (k : String)

/-- Apply one mutation to a fabric state. -/
def applyOp (f : Fabric α) : Op α → Fabric α
  | .setOp s k v => (f.set s k v).1
  | .delOp s k => (f.delete s k).1

/-- The fabric state reached from the empty fabric by a sequence of
mutations. -/
def applyOps (ops : List (Op α)) : Fabric α :=
  ops.foldl applyOp (Fabric.empty α)

/-- `chainFrom prev events` holds when the first event's `previous_data`
is `prev` and each later event's `previous_data` is the preceding event's
`data`. -/
def chainFrom (prev : Option α) : List (ChangeEvent α) → Prop
  | [] => True
  | e :: rest => e.previous_data = prev ∧ chainFrom e.data rest

/-- The `data` of the last event of a list, or `init` if the list is
empty. -/
def lastData (init : Option α) : List (ChangeEvent α) → Option α
  | [] => init
  | e :: rest => lastData e.data rest

theorem scope_eq_of_strs (s t : Scope) (h₁ : s.kindStr = t.kindStr)
    (h₂ : s.scopeIdStr = t.scopeIdStr) : s = t := by
  cases s <;> cases t <;>
    simp_all [Scope.kindStr, Scope.scopeIdStr]

theorem chainFrom_append (p : Option α) (l m : List (ChangeEvent α)) :
    chainFrom p (l ++ m) ↔ chainFrom p l ∧ chainFrom (lastData p l) m := by
  induction l generalizing p with
  | nil => simp [chainFrom, lastData]
  | cons e l ih => simp [chainFrom, lastData, ih, and_assoc]

theorem lastData_append (p : Option α) (l m : List (ChangeEvent α)) :
    lastData p (l ++ m) = lastData (lastData p l) m := by
  induction l generalizing p with
  | nil => simp [lastData]
  | cons e l ih => simp [lastData, ih]

/-- The per-`(scope,key)` history invariant: the filtered event list chains
from `none` and its last `data` is the live stored value. -/
def HistInv (f : Fabric α) : Prop :=
  ∀ s k, chainFrom none (eventsFor s k f.log) ∧
    lastData none (eventsFor s k f.log) = f.store s k

theorem histInv_empty : HistInv (Fabric.empty α) := by
  intro s k
  exact ⟨trivial, rfl⟩


theorem set_store_same (f : Fabric α) (s : Scope) (k : String) (v : α) :
    (f.set s k v).1.store s k = some v := by
  simp [Fabric.set]

theorem set_store_other (f : Fabric α) (s' : Scope) (k' : String) (v : α)
    (s : Scope) (k : String) (h : ¬(s = s' ∧ k = k')) :
    (f.set s' k' v).1.store s k = f.store s k := by
  simp [Fabric.set, h]

theorem delete_store_same (f : Fabric α) (s : Scope) (k : String) :
    (f.delete s k).1.store s k = none := by
  simp [Fabric.delete]

theorem delete_store_other (f : Fabric α) (s' : Scope) (k' : String)
    (s : Scope) (k : String) (h : ¬(s = s' ∧ k = k')) :
    (f.delete s' k').1.store s k = f.store s k := by
  simp [Fabric.delete, h]

theorem eventsFor_set_same (f : Fabric α) (s : Scope) (k : String) (v : α) :
    eventsFor s k (f.set s k v).1.log =
      eventsFor s k f.log ++ [(f.set s k v).2] := by
  simp [eventsFor, Fabric.set, List.filter_append]

theorem eventsFor_set_other (f : Fabric α) (s' : Scope) (k' : String)
    (v : α) (s : Scope) (k : String) (h : ¬(s = s' ∧ k = k')) :
    eventsFor s k (f.set s' k' v).1.log = eventsFor s k f.log := by
  have hpred : ((f.set s' k' v).2.scope == s.kindStr &&
      (f.set s' k' v).2.scope_id == s.scopeIdStr &&
      (f.set s' k' v).2.key == k) = false := by
    rw [Bool.eq_false_iff]
    intro htrue
    simp only [Fabric.set, Bool.and_eq_true, beq_iff_eq] at htrue
    obtain ⟨⟨h₁, h₂⟩, h₃⟩ := htrue
    exact h ⟨(scope_eq_of_strs s' s h₁ h₂).symm, h₃.symm⟩
  simp only [eventsFor, Fabric.set, List.filter_append] at hpred ⊢
  simp [List.filter_cons, hpred]

theorem eventsFor_delete_same (f : Fabric α) (s : Scope) (k : String) :
    eventsFor s k (f.delete s k).1.log =
      eventsFor s k f.log ++ [(f.delete s k).2] := by
  simp [eventsFor, Fabric.delete, List.filter_append]

theorem eventsFor_delete_other (f : Fabric α) (s' : Scope) (k' : String)
    (s : Scope) (k : String) (h : ¬(s = s' ∧ k = k')) :
    eventsFor s k (f.delete s' k').1.log = eventsFor s k f.log := by
  have hpred : ((f.delete s' k').2.scope == s.kindStr &&
      (f.delete s' k').2.scope_id == s.scopeIdStr &&
      (f.delete s' k').2.key == k) = false := by
    rw [Bool.eq_false_iff]
    intro htrue
    simp only [Fabric.delete, Bool.and_eq_true, beq_iff_eq] at htrue
    obtain ⟨⟨h₁, h₂⟩, h₃⟩ := htrue
    exact h ⟨(scope_eq_of_strs s' s h₁ h₂).symm, h₃.symm⟩
  simp only [eventsFor, Fabric.delete, List.filter_append] at hpred ⊢
  simp [List.filter_cons, hpred]

theorem histInv_set (f : Fabric α) (hf : HistInv f) (s' : Scope)
    (k' : String) (v : α) : HistInv (f.set s' k' v).1 := by
  intro s k
  by_cases h : s = s' ∧ k = k'
  · obtain ⟨rfl, rfl⟩ := h
    rw [eventsFor_set_same, chainFrom_append, lastData_append,
      set_store_same]
    obtain ⟨hchain, hlast⟩ := hf s k
    refine ⟨⟨hchain, ?_, trivial⟩, rfl⟩
    rw [hlast]
    rfl
  · rw [eventsFor_set_other f s' k' v s k h, set_store_other f s' k' v s k h]
    exact hf s k

theorem histInv_delete (f : Fabric α) (hf : HistInv f) (s' : Scope)
    (k' : String) : HistInv (f.delete s' k').1 := by
  intro s k
  by_cases h : s = s' ∧ k = k'
  · obtain ⟨rfl, rfl⟩ := h
    rw [eventsFor_delete_same, chainFrom_append, lastData_append,
      delete_store_same]
    obtain ⟨hchain, hlast⟩ := hf s k
    refine ⟨⟨hchain, ?_, trivial⟩, rfl⟩
    rw [hlast]
    rfl
  · rw [eventsFor_delete_other f s' k' s k h, delete_store_other f s' k' s k h]
    exact hf s k

theorem histInv_applyOps (ops : List (Op α)) : HistInv (applyOps ops) := by
  suffices h : ∀ f : Fabric α, HistInv f → HistInv (ops.foldl applyOp f) from
    h (Fabric.empty α) histInv_empty
  induction ops with
  | nil => exact fun f hf => hf
  | cons op ops ih =>
    intro f hf
    cases op with
    | setOp s k v => exact ih _ (histInv_set f hf s k v)
    | delOp s k => exact ih _ (histInv_delete f hf s k)

theorem chain'_of_chainFrom (p : Option α) (l : List (ChangeEvent α))
    (h : chainFrom p l) :
    List.Chain' (fun e₁ e₂ => e₂.previous_data = e₁.data) l := by
  induction l generalizing p with
  | nil => exact List.chain'_nil
  | cons e l ih =>
    cases l with
    | nil => simp
    | cons e₂ l₂ =>
      rw [List.chain'_cons]
      exact ⟨h.2.1, ih e.data h.2⟩

/-- C2: in any fabric state reachable by a sequence of set/delete
mutations from the empty fabric, the events for each `(scope,key)` chain:
the first event's previous_data is null and each event's previous_data is
the value stored immediately before it, i.e. the preceding event's data. -/
theorem c2_history_chain (ops : List (Op α)) (s : Scope) (k : String) :
    chainFrom none (eventsFor s k (applyOps ops).log) ∧
      List.Chain' (fun e₁ e₂ => e₂.previous_data = e₁.data)
        (eventsFor s k (applyOps ops).log) := by
  have h := (histInv_applyOps ops s k).1
  exact ⟨h, chain'_of_chainFrom none _ h⟩

/-- Modelled from the spec: `VectorRecord`
`{scope, key, embedding, metadata}`; the scope is implicit here since the
collection is already per-scope. `μ` is the metadata type. -/
structure VectorRecord (μ : Type) where
  key : String
  embedding : List ℚ
  metadata : μ

/-- A ranked hit `{key, score, metadata}` returned by similarity search. -/
structure Hit (μ : Type) where
  key : String
  score : ℚ
  metadata : μ

/-- Ranking order on hits: descending score. -/
def hitGE (a b : Hit μ) : Prop := b.score ≤ a.score

instance : @DecidableRel (Hit μ) hitGE :=
  fun a b => inferInstanceAs (Decidable (b.score ≤ a.score))

instance : @IsTotal (Hit μ) hitGE :=
  ⟨fun a b => le_total b.score a.score⟩

instance : @IsTrans (Hit μ) hitGE :=
  ⟨fun _ _ _ hab hbc => le_trans hbc hab⟩

/-- Modelled from the spec:
`similarity_search(scope,query_embedding,top_k) -> ranked hits`: scores
every record of the per-scope collection with the similarity function,
sorts descending and returns up to `top_k`.  The similarity function `sim`
is a parameter (the spec says only "e.g. cosine"); it sees the query and
the stored embedding, never the metadata. -/
def similarity_search (sim : List ℚ → List ℚ → ℚ)
    (recs : List (VectorRecord μ)) (q : List ℚ) (top_k : Nat) :
    List (Hit μ) :=
  ((recs.map fun r => Hit.mk r.key (sim q r.embedding) r.metadata).insertionSort
    hitGE).take top_k

/-- Renaming of metadata on a hit, preserving key and score. -/
def Hit.mapMeta (g : μ → ν) (h : Hit μ) : Hit ν :=
  ⟨h.key, h.score, g h.metadata⟩

/-- Renaming of metadata on a stored vector record. -/
def VectorRecord.mapMeta (g : μ → ν) (r : VectorRecord μ) : VectorRecord ν :=
  ⟨r.key, r.embedding, g r.metadata⟩

theorem orderedInsert_mapMeta (g : μ → ν) (a : Hit μ) (l : List (Hit μ)) :
    List.orderedInsert hitGE (a.mapMeta g) (l.map (Hit.mapMeta g)) =
      (List.orderedInsert hitGE a l).map (Hit.mapMeta g) := by
  induction l with
  | nil => rfl
  | cons b l ih =>
    by_cases hab : hitGE a b
    · have hab' : hitGE (a.mapMeta g) (b.mapMeta g) := hab
      simp only [List.map_cons, List.orderedInsert, if_pos hab, if_pos hab']
    · have hab' : ¬hitGE (a.mapMeta g) (b.mapMeta g) := hab
      simp only [List.map_cons, List.orderedInsert, if_neg hab, if_neg hab',
        ih]

theorem insertionSort_mapMeta (g : μ → ν) (l : List (Hit μ)) :
    List.insertionSort hitGE (l.map (Hit.mapMeta g)) =
      (List.insertionSort hitGE l).map (Hit.mapMeta g) := by
  induction l with
  | nil => rfl
  | cons a l ih =>
    rw [List.map_cons, List.insertionSort, List.insertionSort, ih,
      orderedInsert_mapMeta]

/-- Metadata for the documentation-chatbot caller: a string-keyed map,
as the Python hits carry (`hit.get("metadata", {})`). -/
def HitMeta : Type := List (String × String)

/-- Translated from `_filter_hits` in
`examples/python_agent_nodes/documentation_chatbot/main.py`: keep a hit
only when its metadata `"namespace"` entry equals the requested namespace
and its score is not below `min_score`. -/
def filter_hits (hits : List (Hit HitMeta)) (namespace_ : String)
    (min_score : ℚ) : List (Hit HitMeta) :=
  match hits with
  | [] => []
  | h :: rest =>
    if (List.lookup "namespace" h.metadata ≠ some namespace_) then
      filter_hits rest namespace_ min_score
    else if h.score < min_score then
      filter_hits rest namespace_ min_score
    else
      h :: filter_hits rest namespace_ min_score

theorem filter_hits_sublist (hits : List (Hit HitMeta)) (ns : String)
    (m : ℚ) : List.Sublist (filter_hits hits ns m) hits := by
  induction hits with
  | nil => exact List.Sublist.refl []
  | cons h rest ih =>
    rw [filter_hits]
    by_cases h₁ : List.lookup "namespace" h.metadata ≠ some ns
    · rw [if_pos h₁]; exact ih.cons h
    · rw [if_neg h₁]
      by_cases h₂ : h.score < m
      · rw [if_pos h₂]; exact ih.cons h
      · rw [if_neg h₂]; exact ih.cons₂ h

theorem filter_hits_mem (hits : List (Hit HitMeta)) (ns : String) (m : ℚ)
    (x : Hit HitMeta) (hx : x ∈ filter_hits hits ns m) :
    List.lookup "namespace" x.metadata = some ns ∧ m ≤ x.score := by
  induction hits with
  | nil => cases hx
  | cons h rest ih =>
    rw [filter_hits] at hx
    by_cases h₁ : List.lookup "namespace" h.metadata ≠ some ns
    · rw [if_pos h₁] at hx; exact ih hx
    · rw [if_neg h₁] at hx
      by_cases h₂ : h.score < m
      · rw [if_pos h₂] at hx; exact ih hx
      · rw [if_neg h₂] at hx
        rcases List.mem_cons.mp hx with rfl | hx'
        · exact ⟨not_not.mp h₁, not_lt.mp h₂⟩
        · exact ih hx'

/-- C6: with at least `top_k` records stored, similarity search returns
exactly `top_k` hits in non-increasing score order; at `top_k = n` it ranks
the full per-scope collection; its result is oblivious to metadata (any
renaming of stored metadata commutes with the search); the store itself
filters nothing — namespace/score filtering is done by the caller's
`_filter_hits`, which only drops hits whose namespace differs or whose
score is below the threshold. -/
theorem c6_similarity_search (sim : List ℚ → List ℚ → ℚ)
    (recs : List (VectorRecord μ)) (q : List ℚ) (k : Nat)
    (h : k ≤ recs.length) :
    (similarity_search sim recs q k).length = k ∧
    List.Pairwise (fun a b => b.score ≤ a.score)
      (similarity_search sim recs q k) ∧
    List.Perm ((similarity_search sim recs q recs.length).map Hit.key)
      (recs.map VectorRecord.key) ∧
    (∀ (ν : Type) (g : μ → ν),
      similarity_search sim (recs.map (VectorRecord.mapMeta g)) q k =
        (similarity_search sim recs q k).map (Hit.mapMeta g)) ∧
    (∀ (hits : List (Hit HitMeta)) (ns : String) (m : ℚ),
      List.Sublist (filter_hits hits ns m) hits ∧
      ∀ x ∈ filter_hits hits ns m,
        List.lookup "namespace" x.metadata = some ns ∧ m ≤ x.score) := by
  have hlen : (List.insertionSort hitGE
      (recs.map fun r => Hit.mk r.key (sim q r.embedding) r.metadata)).length
      = recs.length := by
    rw [List.length_insertionSort, List.length_map]
  refine ⟨?_, ?_, ?_, ?_, ?_⟩
  · rw [similarity_search, List.length_take, hlen]
    exact Nat.min_eq_left h
  · have hsort := List.sorted_insertionSort hitGE
      (recs.map fun r => Hit.mk r.key (sim q r.embedding) r.metadata)
    have hpair : List.Pairwise (fun a b : Hit μ => b.score ≤ a.score)
        (List.insertionSort hitGE
          (recs.map fun r => Hit.mk r.key (sim q r.embedding) r.metadata)) :=
      hsort.imp fun hab => hab
    exact hpair.sublist (List.take_sublist _ _)
  · have htake : similarity_search sim recs q recs.length =
        List.insertionSort hitGE
          (recs.map fun r => Hit.mk r.key (sim q r.embedding) r.metadata) := by
      rw [similarity_search]
      exact List.take_of_length_le (le_of_eq hlen)
    rw [htake]
    have hperm := (List.perm_insertionSort hitGE
      (recs.map fun r => Hit.mk r.key (sim q r.embedding) r.metadata)).map
      Hit.key
    simpa [List.map_map, Function.comp] using hperm
  · intro ν g
    have hmaps : (recs.map (VectorRecord.mapMeta g)).map
        (fun r => Hit.mk r.key (sim q r.embedding) r.metadata) =
        (recs.map fun r => Hit.mk r.key (sim q r.embedding) r.metadata).map
          (Hit.mapMeta g) := by
      simp only [List.map_map]
      rfl
    rw [similarity_search, similarity_search, hmaps, insertionSort_mapMeta,
      List.map_take]
  · intro hits ns m
    exact ⟨filter_hits_sublist hits ns m, fun x hx =>
      filter_hits_mem hits ns m x hx⟩

/-- A concrete similarity function for exercising the search: the head of
the stored embedding. -/
def c6sim : List ℚ → List ℚ → ℚ := fun _ e => e.headD 0

/-- A concrete two-record collection for exercising the search. -/
def c6recs : List (VectorRecord Unit) :=
  [VectorRecord.mk "k1" [1] (), VectorRecord.mk "k2" [2] ()]

theorem c6_similarity_search_witness :
    1 ≤ c6recs.length ∧
    ((similarity_search c6sim c6recs [] 1).length = 1 ∧
      List.Pairwise (fun a b => b.score ≤ a.score)
        (similarity_search c6sim c6recs [] 1) ∧
      List.Perm ((similarity_search c6sim c6recs [] c6recs.length).map
        Hit.key) (c6recs.map VectorRecord.key) ∧
      (∀ (ν : Type) (g : Unit → ν),
        similarity_search c6sim (c6recs.map (VectorRecord.mapMeta g)) [] 1 =
          (similarity_search c6sim c6recs [] 1).map (Hit.mapMeta g)) ∧
      (∀ (hits : List (Hit HitMeta)) (ns : String) (m : ℚ),
        List.Sublist (filter_hits hits ns m) hits ∧
        ∀ x ∈ filter_hits hits ns m,
          List.lookup "namespace" x.metadata = some ns ∧ m ≤ x.score)) :=
  ⟨by decide, c6_similarity_search c6sim c6recs [] 1 (by decide)⟩
